import Mathlib

/-!
Verification development for `yagc.py`, a minimal local version-control tool.

The embedding below translates the state-manipulating core of the source into
executable Lean definitions:

* repository state (`staged.json`, `tracked.json`, `commits.json`,
  `status.json`) becomes the structure `Repo`;
* the working tree and the per-commit snapshot directories become flat
  association lists from path strings to file contents (`FS`);
* each command (`add`, `remove`, `commit`, `checkout`, `reset`) becomes a
  function from the explicit inputs it reads to an outcome value; Python
  exceptions that escape a command are modelled as dedicated crash outcomes;
* `commit` additionally records the ordered list of filesystem/stored-state
  events it performs (`Ev`), so ordering properties of the commit algorithm
  can be stated about the trace.

Path strings use "/" as the separator (the source uses `os.sep`); string
helpers are implemented over `String.data` so that all definitions reduce in
the kernel.
-/

/-- Lower-case an ASCII letter, as Python `str.lower` does on ASCII input. -/
def charLower (c : Char) : Char :=
  if 65 ≤ c.toNat ∧ c.toNat ≤ 90 then Char.ofNat (c.toNat + 32) else c

/-- Upper-case an ASCII letter, as Python `str.upper` does on ASCII input. -/
def charUpper (c : Char) : Char :=
  if 97 ≤ c.toNat ∧ c.toNat ≤ 122 then Char.ofNat (c.toNat - 32) else c

/-- ASCII lower-casing of a string (Python `str.lower`). -/
def strToLower (s : String) : String := String.mk (s.data.map charLower)

/-- ASCII upper-casing of a string (Python `str.upper`). -/
def strToUpper (s : String) : String := String.mk (s.data.map charUpper)

/-- Python `s.startswith(pre)`. -/
def strStartsWith (s pre : String) : Bool := pre.data.isPrefixOf s.data

/-- Occurrence of one character list inside another, at any position. -/
def listContainsSub (sub : List Char) : List Char → Bool
  | [] => sub.isEmpty
  | c :: t => sub.isPrefixOf (c :: t) || listContainsSub sub t

/-- Python `sub in s` (substring containment). -/
def strContains (s sub : String) : Bool := listContainsSub sub.data s.data

/-- Python `s.split('/')`: split a character list at every separator. -/
def splitSlashChars : List Char → List (List Char)
  | [] => [[]]
  | c :: rest =>
    let r := splitSlashChars rest
    if c = '/' then [] :: r
    else
      match r with
      | h :: t => (c :: h) :: t
      | [] => [[c]]

/-- Python `s.split(os.sep)` with "/" as the separator. -/
def splitSlash (s : String) : List String :=
  (splitSlashChars s.data).map (fun l => String.mk l)

/-- Python `os.path.join(a, b)` for a non-empty relative `b`. -/
def joinPath (a b : String) : String := a ++ "/" ++ b

/-- Join path components back into a relative path string. -/
def joinComps : List String → String
  | [] => ""
  | [c] => c
  | c :: rest => c ++ "/" ++ joinComps rest

/-- Accumulator pass of `os.path.normpath`: drop "." and empty components and
resolve "..". -/
def normpathComps : List String → List String → List String
  | [], acc => acc.reverse
  | c :: rest, acc =>
    if c = "." ∨ c = "" then normpathComps rest acc
    else if c = ".." then
      match acc with
      | [] => normpathComps rest [".."]
      | p :: t => if p = ".." then normpathComps rest (".." :: acc) else normpathComps rest t
    else normpathComps rest (c :: acc)

/-- Python `os.path.normpath` restricted to relative "/"-separated paths. -/
def normpath (p : String) : String :=
  let comps := normpathComps (splitSlash p) []
  if comps.isEmpty then "." else joinComps comps

/-- Source `strip_working_dir`: drop the `working_dir + os.sep` front of an
absolute filename when present, else return the filename unchanged. -/
def strip_working_dir (wd fn : String) : String :=
  if strStartsWith fn wd then String.mk (fn.data.drop (wd.data.length + 1)) else fn

/-- A commit record as stored in `commits.json`: a message and a hash. -/
structure Commit where
  msg : String
  hash : String
deriving DecidableEq, Repr

/-- The persistent repository state: `staged.json` (ordered list of absolute
paths), `tracked.json` (set of absolute paths, modelled as a list),
`commits.json` (ordered commit log) and the `head` flag of `status.json`. -/
structure Repo where
  staged : List String
  tracked : List String
  commits : List Commit
  head : Bool
deriving DecidableEq, Repr

/-- A flat filesystem fragment: absolute or snapshot-relative path to file
content. Directories are implicit. -/
abbrev FS := List (String × String)

/-- Overwriting write of one file into a flat filesystem. -/
def fsWrite (fs : FS) (p c : String) : FS :=
  (p, c) :: fs.filter (fun kv => kv.1 != p)

/-- Result of `get_commit_from_hash_prefix` in the source: a found commit, the
string sentinel `'no valid commit'` returned on zero matches, or the bare
`return` (Python `None`) taken on an ambiguous match. -/
inductive ResolveResult
  | found (c : Commit)
  | noValidCommit
  | ambiguous
deriving DecidableEq, Repr

/-- Loop of `get_commit_from_hash_prefix`: scan the commit log keeping the
single match found so far; a second match returns immediately (Python
`return` with no value, i.e. `None`). -/
def resolveLoop (pre : String) : List Commit → Option Commit → ResolveResult
  | [], none => .noValidCommit
  | [], some c => .found c
  | fc :: rest, acc =>
    if strStartsWith fc.hash (strToLower pre) then
      match acc with
      | some _ => .ambiguous
      | none => resolveLoop pre rest (some fc)
    else resolveLoop pre rest acc

/-- Source `get_commit_from_hash_prefix(prefix)`: case-insensitive scan of the
commit log for hashes starting with the given characters. -/
def get_commit_from_hash_prefix (commits : List Commit) (pre : String) : ResolveResult :=
  resolveLoop pre commits none

/-- One filename of the `add` loop: build the absolute path, skip it when the
file does not exist or is already staged, otherwise append it to the staged
list. -/
def addOne (wd : String) (wt : FS) (st : List String) (fn : String) : List String :=
  let abs := joinPath wd (normpath fn)
  if (wt.lookup abs).isNone then st
  else if st.contains abs then st
  else st ++ [abs]

/-- Source `add(*filenames)`: refused (with no change) when HEAD is not
checked out; otherwise stages each existing, not-yet-staged file. -/
def add (wd : String) (repo : Repo) (wt : FS) (fns : List String) : Repo :=
  if !repo.head then repo
  else { repo with staged := fns.foldl (addOne wd wt) repo.staged }

/-- Source `remove(filename)`: refused (with no change) when HEAD is not
checked out; otherwise drops the first occurrence of the absolute path from
the staged list, or reports "not staged" with no change. -/
def remove (wd : String) (repo : Repo) (fn : String) : Repo :=
  if !repo.head then repo
  else
    let abs := joinPath wd fn
    if repo.staged.contains abs then { repo with staged := repo.staged.erase abs }
    else repo

/-- The paths in the tracked set that no longer exist on the filesystem
(`deletions` in the source's `commit`). -/
def deletionsOf (repo : Repo) (wt : FS) : List String :=
  repo.tracked.filter (fun f => (wt.lookup f).isNone)

/-- The files the source's `commit` carries forward from the previous
snapshot: `tracked - set(staged) - set(deletions)`. -/
def carryList (repo : Repo) (wt : FS) : List String :=
  repo.tracked.filter
    (fun f => !repo.staged.contains f && !(deletionsOf repo wt).contains f)

/-- Python set update `tracked.update(staged)` on the list model. -/
def trackedUnion (tracked staged : List String) : List String :=
  tracked ++ staged.filter (fun f => !tracked.contains f)

/-- Observable events of a `commit` run, in execution order: creating the
snapshot directory, wiping `staged.json`, creating an intermediate snapshot
subdirectory, copying a staged file from the working tree into the snapshot,
appending the new record to `commits.json`, copying a carry-forward file from
the previous snapshot, and rewriting `tracked.json`. -/
inductive Ev
  | mkCommitDir
  | wipeStaged
  | mkDir (rel : String)
  | copyStaged (src : String) (rel : String)
  | appendCommit (c : Commit)
  | carryForward (src : String) (rel : String)
  | updateTracked
deriving DecidableEq, Repr

/-- Ways a `commit` run dies with an uncaught Python exception:
`FileExistsError` from `os.mkdir` in the staged-copy loop, `FileNotFoundError`
from `shutil.copy` of a staged file, or any exception inside the carry-forward
`try` block — whose `except Error` clause itself raises `NameError` because
`Error` is not a defined name, aborting the whole commit. -/
inductive CommitCrash
  | mkdirExists (rel : String)
  | stagedSrcMissing (src : String)
  | carryNameError (src : String)
deriving DecidableEq, Repr

/-- State threaded through the two copy loops of `commit`: the snapshot
subdirectories created so far (relative to the commit directory) and the
snapshot file tree written so far (relative path to content). -/
structure PhaseSt where
  dirs : List String
  snap : FS
deriving DecidableEq, Repr

/-- The `os.mkdir` chain of the copy loops: create each parent component of a
relative path in turn; `os.mkdir` of an already-created directory raises
`FileExistsError`, reported as the offending directory. Returns the emitted
events, the updated directory list, and the colliding directory if any. -/
def mkParents : List String → String → List String → List Ev × List String × Option String
  | [], _, dirs => ([], dirs, none)
  | d :: rest, cur, dirs =>
    let nd := if cur = "" then d else cur ++ "/" ++ d
    if dirs.contains nd then ([], dirs, some nd)
    else
      let r := mkParents rest nd (nd :: dirs)
      (Ev.mkDir nd :: r.1, r.2.1, r.2.2)

/-- One iteration of the staged-copy loop of `commit`: create intermediate
directories (uncaught `FileExistsError` on collision), then `shutil.copy` the
staged file from the working tree (uncaught `FileNotFoundError` when the file
vanished since staging). -/
def copyStagedOne (wd : String) (wt : FS) (f : String) (st : PhaseSt) :
    List Ev × PhaseSt × Option CommitCrash :=
  let rel := strip_working_dir wd f
  let m := mkParents (splitSlash rel).dropLast "" st.dirs
  match m.2.2 with
  | some d => (m.1, { st with dirs := m.2.1 }, some (.mkdirExists d))
  | none =>
    match wt.lookup f with
    | none => (m.1, { st with dirs := m.2.1 }, some (.stagedSrcMissing f))
    | some content =>
      (m.1 ++ [.copyStaged f rel],
       { dirs := m.2.1, snap := fsWrite st.snap rel content }, none)

/-- The staged-copy loop of `commit` over the staged list; a crash aborts the
loop. -/
def copyStagedAll (wd : String) (wt : FS) :
    List String → PhaseSt → List Ev × PhaseSt × Option CommitCrash
  | [], st => ([], st, none)
  | f :: rest, st =>
    let r1 := copyStagedOne wd wt f st
    match r1.2.2 with
    | some c => (r1.1, r1.2.1, some c)
    | none =>
      let r2 := copyStagedAll wd wt rest r1.2.1
      (r1.1 ++ r2.1, r2.2.1, r2.2.2)

/-- One iteration of the carry-forward loop of `commit`. Everything runs in a
`try` block whose handler is `except Error` — but `Error` is an undefined
name, so any exception (a directory collision, or the source file missing
from the previous snapshot) turns into an uncaught `NameError` that aborts
the whole commit. -/
def carryOne (wd : String) (prevSnap : FS) (f : String) (st : PhaseSt) :
    List Ev × PhaseSt × Option CommitCrash :=
  let rel := strip_working_dir wd f
  let m := mkParents (splitSlash rel).dropLast "" st.dirs
  match m.2.2 with
  | some _ => (m.1, { st with dirs := m.2.1 }, some (.carryNameError f))
  | none =>
    match prevSnap.lookup rel with
    | none => (m.1, { st with dirs := m.2.1 }, some (.carryNameError f))
    | some content =>
      (m.1 ++ [.carryForward f rel],
       { dirs := m.2.1, snap := fsWrite st.snap rel content }, none)

/-- The carry-forward loop of `commit` over `tracked - staged - deletions`; a
crash aborts the loop (and the commit). -/
def carryAll (wd : String) (prevSnap : FS) :
    List String → PhaseSt → List Ev × PhaseSt × Option CommitCrash
  | [], st => ([], st, none)
  | f :: rest, st =>
    let r1 := carryOne wd prevSnap f st
    match r1.2.2 with
    | some c => (r1.1, r1.2.1, some c)
    | none =>
      let r2 := carryAll wd prevSnap rest r1.2.1
      (r1.1 ++ r2.1, r2.2.1, r2.2.2)

/-- Outcome of a `commit` run: the guard refusals, the "nothing to commit"
no-op, a completed commit (final repository state, the snapshot tree written
for the new commit, and the event trace), or an uncaught-exception crash
(with the repository state and partial snapshot at the moment of death). -/
inductive CommitOutcome
  | notHead
  | nothingToCommit
  | ok (repo : Repo) (snap : FS) (trace : List Ev)
  | crash (c : CommitCrash) (repo : Repo) (snap : FS) (trace : List Ev)
deriving DecidableEq, Repr

/-- Source `commit()`. Inputs: the working directory, the stored repository
state, the working tree, the snapshot store (hash to snapshot tree), the
commit message collected by the external editor, and the freshly generated
time-based hash. Mirrors the source's order of operations: guard on the head
flag; compute deletions; bail out when nothing is staged and nothing deleted;
create the commit directory; wipe `staged.json`; copy staged files; append to
`commits.json`; carry forward from the previous snapshot when this is not the
first commit; finally rewrite `tracked.json`. -/
def commit (wd : String) (repo : Repo) (wt : FS) (snaps : List (String × FS))
    (msg nh : String) : CommitOutcome :=
  if !repo.head then .notHead
  else if repo.staged.isEmpty && (deletionsOf repo wt).isEmpty then .nothingToCommit
  else
    let newCommit : Commit := ⟨msg, nh⟩
    let repo1 : Repo := { repo with staged := [] }
    let r1 := copyStagedAll wd wt repo.staged ⟨[], []⟩
    match r1.2.2 with
    | some c => .crash c repo1 r1.2.1.snap (.mkCommitDir :: .wipeStaged :: r1.1)
    | none =>
      let repo2 : Repo := { repo1 with commits := repo.commits ++ [newCommit] }
      match repo.commits.getLast? with
      | none =>
        let repo3 : Repo := { repo2 with tracked := trackedUnion repo.tracked repo.staged }
        .ok repo3 r1.2.1.snap
          (.mkCommitDir :: .wipeStaged ::
            (r1.1 ++ .appendCommit newCommit :: ([] ++ [.updateTracked])))
      | some prevCommit =>
        let prevSnap := (snaps.lookup prevCommit.hash).getD []
        let r2 := carryAll wd prevSnap (carryList repo wt) r1.2.1
        match r2.2.2 with
        | some c =>
          .crash c repo2 r2.2.1.snap
            (.mkCommitDir :: .wipeStaged :: (r1.1 ++ .appendCommit newCommit :: r2.1))
        | none =>
          let repo3 : Repo := { repo2 with tracked := trackedUnion repo.tracked repo.staged }
          .ok repo3 r2.2.1.snap
            (.mkCommitDir :: .wipeStaged ::
              (r1.1 ++ .appendCommit newCommit :: (r2.1 ++ [.updateTracked])))

/-- The event trace of a commit outcome (empty for the no-write refusals). -/
def commitTrace : CommitOutcome → List Ev
  | .ok _ _ t => t
  | .crash _ _ _ t => t
  | _ => []

/-- The directories collected by `checkout`'s pruning walk into
`tracked_dirs`: every walked path except the repository root and any path
containing the `yagc` metadata directory as a substring. (The inner loops of
the source that look at filenames and subdirectories are no-ops: their
`continue` statements only advance those inner loops.) `os.rmdir` is then
attempted on exactly this list, with failures ignored. -/
def checkout_tracked_dirs (wd : String) (walkPaths : List String) : List String :=
  walkPaths.filter
    (fun p => !(p == wd || strContains p "/yagc" || strContains p "/yagc/"))

/-- Outcome of a `checkout` run: the `IndexError` crash of `commits[-1]` on an
empty log, the clean refusal on the `'no valid commit'` sentinel, the user
declining the destructive-checkout warning, the `TypeError` crash of
`commit['hash']` when an ambiguous resolution returned `None` (after the
tracked files have already been deleted from the working tree), or a completed
checkout. Completed and ambiguous-crash outcomes record the working tree and
the list of directories on which removal was attempted. -/
inductive CheckoutOutcome
  | crashEmptyLog
  | invalidRef
  | aborted
  | crashNoneHash (wt : FS) (rmdirs : List String)
  | ok (repo : Repo) (wt : FS) (rmdirs : List String)
deriving DecidableEq, Repr

/-- The restore phase shared by both successful `checkout` branches: delete
every tracked file from the working tree (missing files tolerated), attempt
to remove the pruned directories, copy the target commit's snapshot tree back
under the working directory (an absent snapshot directory makes `os.walk`
yield nothing), and finally store the head flag computed from the reference
string. -/
def restorePhase (wd : String) (repo : Repo) (wt : FS) (snaps : List (String × FS))
    (walkPaths : List String) (c : Commit) (isHeadRef : Bool) : CheckoutOutcome :=
  let wt1 := wt.filter (fun kv => !repo.tracked.contains kv.1)
  let rmdirs := checkout_tracked_dirs wd walkPaths
  let snap := (snaps.lookup c.hash).getD []
  let wt2 := snap.foldl (fun acc rc => fsWrite acc (joinPath wd rc.1) rc.2) wt1
  .ok { repo with head := isHeadRef } wt2 rmdirs

/-- Source `checkout(commit_hash, *args)`. The head flag written at the end is
`commit_hash.upper() == 'HEAD'`, i.e. it records which reference string was
used, not whether the target is the latest commit. `proceed` models the
confirmation: `--quiet`/`-q` was passed or the user answered `y` to the
destructive-checkout warning (the prompt only exists on the non-HEAD branch).
An ambiguous prefix resolves to Python `None`, which the source does not
detect: it proceeds to delete the tracked files and then crashes reading
`commit['hash']`. -/
def checkout (wd : String) (repo : Repo) (wt : FS) (snaps : List (String × FS))
    (walkPaths : List String) (ref : String) (proceed : Bool) : CheckoutOutcome :=
  let isHeadRef := strToUpper ref == "HEAD"
  if isHeadRef then
    match repo.commits.getLast? with
    | none => .crashEmptyLog
    | some c => restorePhase wd repo wt snaps walkPaths c true
  else
    match get_commit_from_hash_prefix repo.commits ref with
    | .noValidCommit => .invalidRef
    | .ambiguous =>
      if proceed then
        .crashNoneHash (wt.filter (fun kv => !repo.tracked.contains kv.1))
          (checkout_tracked_dirs wd walkPaths)
      else .aborted
    | .found c =>
      if proceed then restorePhase wd repo wt snaps walkPaths c false
      else .aborted

/-- The directory-removal attempts of a checkout outcome. -/
def checkoutRmdirs : CheckoutOutcome → List String
  | .ok _ _ rm => rm
  | .crashNoneHash _ rm => rm
  | _ => []

/-- Outcome of a `reset` run. The head guard of the source prints its
complaint but is missing a `return`, so execution always continues into hash
resolution (`warnedNotHead` records that the complaint was printed). A
resolution returning the `'no valid commit'` sentinel exits cleanly;
any other resolution result reaches the warning line, which reads the local
variable `commits` before its assignment and dies with `UnboundLocalError` —
so `reset` never mutates any state. -/
inductive ResetOutcome
  | invalidRef (warnedNotHead : Bool)
  | crashUnboundLocal (warnedNotHead : Bool)
deriving DecidableEq, Repr

/-- Source `reset(hash_prefix)`: head guard without a `return`, hash
resolution, then the `UnboundLocalError` crash on the warning line for every
resolved (or ambiguous) reference. The rest of the function (confirmation,
`checkout`, log truncation, head-flag restore) is unreachable. -/
def reset (repo : Repo) (pre : String) : ResetOutcome :=
  let warnedNotHead := !repo.head
  match get_commit_from_hash_prefix repo.commits pre with
  | .noValidCommit => .invalidRef warnedNotHead
  | _ => .crashUnboundLocal warnedNotHead


/-- Events of the staged-copy phase of `commit`: directory creations and
staged-file copies. -/
def isStagedPhaseEv : Ev → Bool
  | .mkDir _ => true
  | .copyStaged _ _ => true
  | _ => false

/-- Events of the carry-forward phase of `commit`: directory creations and
carry-forward copies. -/
def isCarryPhaseEv : Ev → Bool
  | .mkDir _ => true
  | .carryForward _ _ => true
  | _ => false

/-- A snapshot copy event of either kind. -/
def isCopyEv : Ev → Bool
  | .copyStaged _ _ => true
  | .carryForward _ _ => true
  | _ => false

/-- The `commits.json` append event. -/
def isAppendEv : Ev → Bool
  | .appendCommit _ => true
  | _ => false

/-- Decides "every append to `commits.json` happens after every snapshot copy"
on a commit trace. -/
def appendAfterAllCopies (t : List Ev) : Bool :=
  t.enum.all fun pi =>
    !isAppendEv pi.2 || t.enum.all fun pj => !isCopyEv pj.2 || pj.1 < pi.1

/-- Decides "the wipe of `staged.json` happens after every snapshot copy" on a
commit trace. -/
def wipeAfterAllCopies (t : List Ev) : Bool :=
  t.enum.all fun pi =>
    !(pi.2 == Ev.wipeStaged) || t.enum.all fun pj => !isCopyEv pj.2 || pj.1 < pi.1

/- ------------------------------------------------------------------ -/
/- Helper lemmas                                                       -/
/- ------------------------------------------------------------------ -/

theorem listIsPrefixOf_append (l y : List Char) : l.isPrefixOf (l ++ y) = true := by
  induction l with
  | nil => simp [List.isPrefixOf]
  | cons c t ih => simp [List.isPrefixOf, ih]

theorem listContainsSub_append (x sub y : List Char) :
    listContainsSub sub (x ++ sub ++ y) = true := by
  induction x with
  | nil =>
    cases sub with
    | nil => cases y <;> simp [listContainsSub, List.isPrefixOf]
    | cons c t =>
      show ((c :: t).isPrefixOf (c :: (t ++ y)) || listContainsSub (c :: t) (t ++ y)) = true
      have h := listIsPrefixOf_append (c :: t) y
      simp only [List.cons_append] at h
      simp [h]
  | cons c xs ih =>
    show (sub.isPrefixOf (c :: (xs ++ sub ++ y)) || listContainsSub sub (xs ++ sub ++ y)) = true
    rw [ih]
    simp

theorem strContains_of_append (p a sub b : String) (hp : p = a ++ sub ++ b) :
    strContains p sub = true := by
  subst hp
  obtain ⟨la⟩ := a
  obtain ⟨ls⟩ := sub
  obtain ⟨lb⟩ := b
  show listContainsSub ls (la ++ ls ++ lb) = true
  exact listContainsSub_append la ls lb

theorem mkParents_evs :
    ∀ (parents : List String) (cur : String) (dirs : List String) (ev : Ev),
      ev ∈ (mkParents parents cur dirs).1 → ∃ d, ev = Ev.mkDir d := by
  intro parents
  induction parents with
  | nil => intro cur dirs ev h; simp [mkParents] at h
  | cons d rest ih =>
    intro cur dirs ev h
    simp only [mkParents] at h
    split at h <;> split at h
    · simp at h
    · simp only [List.mem_cons] at h
      rcases h with h | h
      · exact ⟨_, h⟩
      · exact ih _ _ ev h
    · simp at h
    · simp only [List.mem_cons] at h
      rcases h with h | h
      · exact ⟨_, h⟩
      · exact ih _ _ ev h

theorem copyStagedOne_evs (wd : String) (wt : FS) (f : String) (st : PhaseSt) (ev : Ev)
    (h : ev ∈ (copyStagedOne wd wt f st).1) : isStagedPhaseEv ev = true := by
  simp only [copyStagedOne] at h
  split at h
  · obtain ⟨d, rfl⟩ := mkParents_evs _ _ _ ev h
    rfl
  · split at h
    · obtain ⟨d, rfl⟩ := mkParents_evs _ _ _ ev h
      rfl
    · simp only [List.mem_append, List.mem_singleton] at h
      rcases h with h | rfl
      · obtain ⟨d, rfl⟩ := mkParents_evs _ _ _ ev h
        rfl
      · rfl

theorem copyStagedAll_evs (wd : String) (wt : FS) :
    ∀ (l : List String) (st : PhaseSt) (ev : Ev),
      ev ∈ (copyStagedAll wd wt l st).1 → isStagedPhaseEv ev = true := by
  intro l
  induction l with
  | nil => intro st ev h; simp [copyStagedAll] at h
  | cons f rest ih =>
    intro st ev h
    simp only [copyStagedAll] at h
    split at h
    · exact copyStagedOne_evs wd wt f st ev h
    · simp only [List.mem_append] at h
      rcases h with h | h
      · exact copyStagedOne_evs wd wt f st ev h
      · exact ih _ ev h

theorem carryOne_evs (wd : String) (ps : FS) (f : String) (st : PhaseSt) (ev : Ev)
    (h : ev ∈ (carryOne wd ps f st).1) : isCarryPhaseEv ev = true := by
  simp only [carryOne] at h
  split at h
  · obtain ⟨d, rfl⟩ := mkParents_evs _ _ _ ev h
    rfl
  · split at h
    · obtain ⟨d, rfl⟩ := mkParents_evs _ _ _ ev h
      rfl
    · simp only [List.mem_append, List.mem_singleton] at h
      rcases h with h | rfl
      · obtain ⟨d, rfl⟩ := mkParents_evs _ _ _ ev h
        rfl
      · rfl

theorem carryAll_evs (wd : String) (ps : FS) :
    ∀ (l : List String) (st : PhaseSt) (ev : Ev),
      ev ∈ (carryAll wd ps l st).1 → isCarryPhaseEv ev = true := by
  intro l
  induction l with
  | nil => intro st ev h; simp [carryAll] at h
  | cons f rest ih =>
    intro st ev h
    simp only [carryAll] at h
    split at h
    · exact carryOne_evs wd ps f st ev h
    · simp only [List.mem_append] at h
      rcases h with h | h
      · exact carryOne_evs wd ps f st ev h
      · exact ih _ ev h

theorem carryOne_none_ev (wd : String) (ps : FS) (f : String) (st : PhaseSt)
    (h : (carryOne wd ps f st).2.2 = none) :
    Ev.carryForward f (strip_working_dir wd f) ∈ (carryOne wd ps f st).1 := by
  simp only [carryOne] at h ⊢
  split at h
  · simp at h
  · split at h
    · simp at h
    · simp

theorem carryAll_mem (wd : String) (ps : FS) :
    ∀ (l : List String) (st : PhaseSt), (carryAll wd ps l st).2.2 = none →
      ∀ f ∈ l, Ev.carryForward f (strip_working_dir wd f) ∈ (carryAll wd ps l st).1 := by
  intro l
  induction l with
  | nil => intro st h f hf; simp at hf
  | cons g rest ih =>
    intro st h f hf
    simp only [carryAll] at h ⊢
    cases hc : (carryOne wd ps g st).2.2 with
    | some c => rw [hc] at h; simp at h
    | none =>
      rw [hc] at h
      simp only [hc]
      simp only [List.mem_cons] at hf
      rcases hf with rfl | hf'
      · exact List.mem_append_left _ (carryOne_none_ev wd ps f st hc)
      · exact List.mem_append_right _ (ih _ h f hf')

theorem copyStagedOne_crash_kind (wd : String) (wt : FS) (f : String) (st : PhaseSt)
    (c : CommitCrash) (h : (copyStagedOne wd wt f st).2.2 = some c) :
    (∃ d, c = CommitCrash.mkdirExists d) ∨ (∃ g, c = CommitCrash.stagedSrcMissing g) := by
  simp only [copyStagedOne] at h
  split at h
  · injection h with h1
    exact Or.inl ⟨_, h1.symm⟩
  · split at h
    · injection h with h1
      exact Or.inr ⟨_, h1.symm⟩
    · simp at h

theorem copyStagedAll_crash_kind (wd : String) (wt : FS) :
    ∀ (l : List String) (st : PhaseSt) (c : CommitCrash),
      (copyStagedAll wd wt l st).2.2 = some c →
      (∃ d, c = CommitCrash.mkdirExists d) ∨ (∃ g, c = CommitCrash.stagedSrcMissing g) := by
  intro l
  induction l with
  | nil => intro st c h; simp [copyStagedAll] at h
  | cons f rest ih =>
    intro st c h
    simp only [copyStagedAll] at h
    split at h
    · rename_i c0 hc0
      simp only at h
      injection h with h1
      subst h1
      exact copyStagedOne_crash_kind wd wt f st c0 hc0
    · simp only at h
      exact ih _ c h

theorem carryOne_crash_kind (wd : String) (ps : FS) (f : String) (st : PhaseSt)
    (c : CommitCrash) (h : (carryOne wd ps f st).2.2 = some c) :
    ∃ k, c = CommitCrash.carryNameError k := by
  simp only [carryOne] at h
  split at h
  · injection h with h1
    exact ⟨_, h1.symm⟩
  · split at h
    · injection h with h1
      exact ⟨_, h1.symm⟩
    · simp at h

theorem carryAll_crash_kind (wd : String) (ps : FS) :
    ∀ (l : List String) (st : PhaseSt) (c : CommitCrash),
      (carryAll wd ps l st).2.2 = some c → ∃ k, c = CommitCrash.carryNameError k := by
  intro l
  induction l with
  | nil => intro st c h; simp [carryAll] at h
  | cons f rest ih =>
    intro st c h
    simp only [carryAll] at h
    split at h
    · rename_i c0 hc0
      simp only at h
      injection h with h1
      subst h1
      exact carryOne_crash_kind wd ps f st c0 hc0
    · simp only at h
      exact ih _ c h

theorem checkoutRmdirs_cases (wd : String) (repo : Repo) (wt : FS)
    (snaps : List (String × FS)) (walk : List String) (ref : String) (proceed : Bool) :
    checkoutRmdirs (checkout wd repo wt snaps walk ref proceed) = [] ∨
    checkoutRmdirs (checkout wd repo wt snaps walk ref proceed) =
      checkout_tracked_dirs wd walk := by
  simp only [checkout, restorePhase]
  split
  · split
    · left; rfl
    · right; rfl
  · split
    · left; rfl
    · split
      · right; rfl
      · left; rfl
    · split
      · right; rfl
      · left; rfl

/-- C10: the directory-pruning step of `checkout` never attempts to remove any
path containing the `yagc` metadata directory: a path of the form
`a ++ "/yagc" ++ b` (in particular any path with a `yagc` component, where `b`
is empty or starts with `"/"`) is filtered out of `tracked_dirs` by the
substring test in the source, so no `os.rmdir` is attempted on it and the
persisted staged/tracked/commits/status files and all snapshot directories
survive every checkout. -/
theorem checkout_prune_never_touches_yagc (wd : String) (repo : Repo) (wt : FS)
    (snaps : List (String × FS)) (walk : List String) (ref : String) (proceed : Bool)
    (p a b : String) (hp : p = a ++ "/yagc" ++ b) :
    p ∉ checkoutRmdirs (checkout wd repo wt snaps walk ref proceed) := by
  have hc : strContains p "/yagc" = true := strContains_of_append p a "/yagc" b hp
  rcases checkoutRmdirs_cases wd repo wt snaps walk ref proceed with h | h
  · rw [h]
    exact List.not_mem_nil p
  · rw [h]
    intro hmem
    have hpred := (List.mem_filter.mp hmem).2
    simp [hc] at hpred

/-- Witness for C10 at a concrete checkout: the walked path `/r/yagc` has a
`yagc` component and is not among the attempted directory removals. -/
theorem checkout_prune_never_touches_yagc_witness :
    "/r/yagc" = "/r" ++ "/yagc" ++ "" ∧
    "/r/yagc" ∉ checkoutRmdirs
      (checkout "/r" ⟨[], ["/r/a.txt"], [⟨"m1", "aa11"⟩], true⟩ [("/r/a.txt", "hello")]
        [("aa11", [("a.txt", "hello")])] ["/r/yagc", "/r/d"] "aa11" true) :=
  ⟨by decide,
   checkout_prune_never_touches_yagc "/r" ⟨[], ["/r/a.txt"], [⟨"m1", "aa11"⟩], true⟩
     [("/r/a.txt", "hello")] [("aa11", [("a.txt", "hello")])] ["/r/yagc", "/r/d"]
     "aa11" true "/r/yagc" "/r" "" (by decide)⟩

/-- C1 (amended): for every checkout that resolves to a target commit and
proceeds, the stored head flag afterwards is true if and only if the
reference supplied was the sentinel "HEAD" (case-insensitively) — not
whether the target commit is the last entry of the commit log. In
particular, checking out the latest commit by its full hash leaves the head
flag false. -/
theorem checkout_head_flag_records_ref (wd : String) (repo : Repo) (wt : FS)
    (snaps : List (String × FS)) (walk : List String) (ref : String) (proceed : Bool)
    (r : Repo) (w : FS) (rm : List String)
    (h : checkout wd repo wt snaps walk ref proceed = .ok r w rm) :
    r.head = (strToUpper ref == "HEAD") := by
  simp only [checkout, restorePhase] at h
  split at h
  case isTrue hif =>
    split at h
    · exact absurd h (by simp)
    · injection h with h1 h2 h3
      subst h1
      simp [hif]
  case isFalse hif =>
    simp only [Bool.not_eq_true] at hif
    split at h
    · exact absurd h (by simp)
    · split at h
      · exact absurd h (by simp)
      · exact absurd h (by simp)
    · split at h
      · injection h with h1 h2 h3
        subst h1
        simp [hif]
      · exact absurd h (by simp)

/-- Witness for C1 (amended) at a concrete proceeding checkout. -/
theorem checkout_head_flag_records_ref_witness :
    checkout "/r" ⟨[], ["/r/a.txt"], [⟨"m1", "aa11"⟩], true⟩ [("/r/a.txt", "hello")]
        [("aa11", [("a.txt", "hello")])] [] "aa11" true =
      .ok ⟨[], ["/r/a.txt"], [⟨"m1", "aa11"⟩], false⟩ [("/r/a.txt", "hello")] [] ∧
    (Repo.mk [] ["/r/a.txt"] [⟨"m1", "aa11"⟩] false).head = (strToUpper "aa11" == "HEAD") :=
  ⟨by decide,
   checkout_head_flag_records_ref "/r" ⟨[], ["/r/a.txt"], [⟨"m1", "aa11"⟩], true⟩
     [("/r/a.txt", "hello")] [("aa11", [("a.txt", "hello")])] [] "aa11" true
     ⟨[], ["/r/a.txt"], [⟨"m1", "aa11"⟩], false⟩ [("/r/a.txt", "hello")] [] (by decide)⟩

/-- Counterexample to C1 as stated: in a repository whose commit log is
exactly `[⟨"m1", "aa11"⟩]`, checking out the latest commit by its full hash
"aa11" resolves to that commit, proceeds, and stores head flag `false`, even
though the target is the last entry of the commit log — so "head flag true
iff the target is the last entry" fails at this input. -/
theorem checkout_head_iff_last_counterexample :
    checkout "/r" ⟨[], ["/r/a.txt"], [⟨"m1", "aa11"⟩], true⟩ [("/r/a.txt", "hello")]
        [("aa11", [("a.txt", "hello")])] [] "aa11" true =
      .ok ⟨[], ["/r/a.txt"], [⟨"m1", "aa11"⟩], false⟩ [("/r/a.txt", "hello")] [] ∧
    get_commit_from_hash_prefix [⟨"m1", "aa11"⟩] "aa11" = .found ⟨"m1", "aa11"⟩ ∧
    ¬ (((false : Bool) = true) ↔
        ([(⟨"m1", "aa11"⟩ : Commit)].getLast? = some ⟨"m1", "aa11"⟩)) := by
  refine ⟨by decide, by decide, by decide⟩

/-- C2 evidence: with two commits whose hashes share the prefix "a",
resolution reports ambiguity by returning Python `None`; `checkout` compares
that result only against the `'no valid commit'` string, so it proceeds,
deletes the tracked files from the working tree, and then crashes with
`TypeError` on `commit['hash']` — the working tree is left changed (the
tracked file `/r/t.txt` is gone), contradicting "aborts with no change". -/
theorem checkout_ambiguous_destroys_tree :
    get_commit_from_hash_prefix [⟨"m1", "aa11"⟩, ⟨"m2", "ab22"⟩] "a" = .ambiguous ∧
    checkout "/r" ⟨[], ["/r/t.txt"], [⟨"m1", "aa11"⟩, ⟨"m2", "ab22"⟩], true⟩
        [("/r/t.txt", "keep")] [] [] "a" true = .crashNoneHash [] [] ∧
    ([("/r/t.txt", "keep")] : FS) ≠ ([] : FS) := by
  refine ⟨by decide, by decide, by decide⟩

/-- C3 evidence: resolving "aa" in the two-commit log yields the first (not
last) commit, yet `reset` to it never completes: the warning line reads the
local variable `commits` before its assignment and every resolved reset dies
with `UnboundLocalError`, so the commit log is never truncated. -/
theorem reset_nonlast_always_crashes :
    get_commit_from_hash_prefix [⟨"m1", "aa11"⟩, ⟨"m2", "ab22"⟩] "aa" =
      .found ⟨"m1", "aa11"⟩ ∧
    ([⟨"m1", "aa11"⟩, ⟨"m2", "ab22"⟩] : List Commit).getLast? = some ⟨"m2", "ab22"⟩ ∧
    reset ⟨[], [], [⟨"m1", "aa11"⟩, ⟨"m2", "ab22"⟩], true⟩ "aa" =
      .crashUnboundLocal false := by
  refine ⟨by decide, by decide, by decide⟩

/-- C6 evidence: `reset` never special-cases the reference "HEAD" — it feeds
it to prefix resolution, where the lower-cased "head" cannot match any
hexadecimal hash, so `reset HEAD` aborts with the not-a-valid-prefix message
instead of resolving to the last commit; `checkout HEAD` does resolve to the
last entry when the log is non-empty, and dies with `IndexError` on
`commits[-1]` (no state change, but no typed EmptyHistory failure either)
when the log is empty. -/
theorem reset_rejects_head_reference :
    reset ⟨[], ["/r/a.txt"], [⟨"m1", "aa11"⟩], true⟩ "HEAD" = .invalidRef false ∧
    get_commit_from_hash_prefix [⟨"m1", "aa11"⟩] "HEAD" = .noValidCommit ∧
    checkout "/r" ⟨[], ["/r/a.txt"], [⟨"m1", "aa11"⟩], true⟩ [("/r/a.txt", "hello")]
        [("aa11", [("a.txt", "hello")])] [] "HEAD" true =
      .ok ⟨[], ["/r/a.txt"], [⟨"m1", "aa11"⟩], true⟩ [("/r/a.txt", "hello")] [] ∧
    checkout "/r" ⟨[], [], [], true⟩ [] [] [] "HEAD" true = .crashEmptyLog := by
  refine ⟨by decide, by decide, by decide, by decide⟩

/-- C7 evidence: in a detached repository, `add`, `remove` and `commit` are
rejected with no state change, but `reset` is not: its head guard prints the
complaint without returning, so execution proceeds into resolution and
reaches the warning line (where it dies for the unrelated `UnboundLocalError`
reason) instead of being rejected — `crashUnboundLocal true` records that the
guard was passed in detached state. -/
theorem detached_guard_behaviour :
    add "/r" ⟨["/r/s.txt"], ["/r/t.txt"], [⟨"m1", "aa11"⟩, ⟨"m2", "ab22"⟩], false⟩
        [("/r/n.txt", "N")] ["n.txt"] =
      ⟨["/r/s.txt"], ["/r/t.txt"], [⟨"m1", "aa11"⟩, ⟨"m2", "ab22"⟩], false⟩ ∧
    remove "/r" ⟨["/r/s.txt"], ["/r/t.txt"], [⟨"m1", "aa11"⟩, ⟨"m2", "ab22"⟩], false⟩
        "s.txt" =
      ⟨["/r/s.txt"], ["/r/t.txt"], [⟨"m1", "aa11"⟩, ⟨"m2", "ab22"⟩], false⟩ ∧
    commit "/r" ⟨["/r/s.txt"], ["/r/t.txt"], [⟨"m1", "aa11"⟩, ⟨"m2", "ab22"⟩], false⟩
        [("/r/t.txt", "T"), ("/r/s.txt", "S")] [] "m" "cc33" = .notHead ∧
    reset ⟨["/r/s.txt"], ["/r/t.txt"], [⟨"m1", "aa11"⟩, ⟨"m2", "ab22"⟩], false⟩ "aa" =
      .crashUnboundLocal true := by
  refine ⟨by decide, by decide, by decide, by decide⟩

/-- C8 evidence: with the carry-forward source `b.txt` missing from the
previous snapshot, the `shutil.copy` failure is routed to the `except Error`
clause, whose undefined name `Error` raises `NameError` and aborts the whole
commit (the new record already appended, `tracked.json` not yet rewritten) —
instead of reporting the fault, skipping the file and completing. -/
theorem commit_missing_carry_source_aborts :
    commit "/r" ⟨["/r/a.txt"], ["/r/b.txt"], [⟨"m1", "aa11"⟩], true⟩
        [("/r/a.txt", "A"), ("/r/b.txt", "B")] [("aa11", [])] "m2" "bb22" =
      .crash (.carryNameError "/r/b.txt")
        ⟨[], ["/r/b.txt"], [⟨"m1", "aa11"⟩, ⟨"m2", "bb22"⟩], true⟩
        [("a.txt", "A")]
        [.mkCommitDir, .wipeStaged, .copyStaged "/r/a.txt" "a.txt",
         .appendCommit ⟨"m2", "bb22"⟩] := by
  decide

/-- C9: in HEAD state, with nothing staged and no tracked path missing from
the filesystem, `commit` is the "nothing to commit" no-op: it returns before
any write, so no new commit is created and no state changes. -/
theorem commit_nothing_staged_noop (wd : String) (repo : Repo) (wt : FS)
    (snaps : List (String × FS)) (msg nh : String)
    (hh : repo.head = true) (hs : repo.staged = []) (hd : deletionsOf repo wt = []) :
    commit wd repo wt snaps msg nh = .nothingToCommit := by
  simp [commit, hh, hs, hd]

/-- Witness for C9 at a concrete repository whose tracked file exists. -/
theorem commit_nothing_staged_noop_witness :
    (Repo.mk [] ["/r/a.txt"] [⟨"m1", "aa11"⟩] true).head = true ∧
    (Repo.mk [] ["/r/a.txt"] [⟨"m1", "aa11"⟩] true).staged = [] ∧
    deletionsOf ⟨[], ["/r/a.txt"], [⟨"m1", "aa11"⟩], true⟩ [("/r/a.txt", "hello")] = [] ∧
    commit "/r" ⟨[], ["/r/a.txt"], [⟨"m1", "aa11"⟩], true⟩ [("/r/a.txt", "hello")]
      [("aa11", [("a.txt", "hello")])] "m" "cc33" = .nothingToCommit :=
  ⟨rfl, rfl, by decide,
   commit_nothing_staged_noop "/r" ⟨[], ["/r/a.txt"], [⟨"m1", "aa11"⟩], true⟩
     [("/r/a.txt", "hello")] [("aa11", [("a.txt", "hello")])] "m" "cc33"
     rfl rfl (by decide)⟩

/-- C4 (amended): in every `commit` run that reaches the snapshot phase, the
staged set is emptied before any copy is made and the new commit record is
appended to `commits.json` after the staged-file copies but *before* the
carry-forward copies. Concretely: (1) a completed run's trace is create the
commit directory, wipe `staged.json`, staged-phase copy events only, the
single append, carry-phase copy events only, then the `tracked.json`
rewrite, with the final state's staged list empty and the new record
appended; (2) a run aborted by a carry-forward failure dies with the commit
already appended and the staged set already emptied, its trace having the
same wipe-copies-append-carries shape up to the point of death; (3) a run
aborted during the staged-phase copies dies after the wipe but before any
append. -/
theorem commit_append_between_copy_phases (wd : String) (repo : Repo) (wt : FS)
    (snaps : List (String × FS)) (msg nh : String) :
    (∀ r s t, commit wd repo wt snaps msg nh = .ok r s t →
      ∃ e1 e2,
        t = Ev.mkCommitDir :: Ev.wipeStaged ::
            (e1 ++ Ev.appendCommit ⟨msg, nh⟩ :: (e2 ++ [Ev.updateTracked])) ∧
        (∀ ev ∈ e1, isStagedPhaseEv ev = true) ∧
        (∀ ev ∈ e2, isCarryPhaseEv ev = true) ∧
        r.staged = [] ∧ r.commits = repo.commits ++ [⟨msg, nh⟩]) ∧
    (∀ k r s t, commit wd repo wt snaps msg nh = .crash (.carryNameError k) r s t →
      ∃ e1 e2,
        t = Ev.mkCommitDir :: Ev.wipeStaged :: (e1 ++ Ev.appendCommit ⟨msg, nh⟩ :: e2) ∧
        (∀ ev ∈ e1, isStagedPhaseEv ev = true) ∧
        (∀ ev ∈ e2, isCarryPhaseEv ev = true) ∧
        r.staged = [] ∧ r.commits = repo.commits ++ [⟨msg, nh⟩]) ∧
    (∀ c r s t, commit wd repo wt snaps msg nh = .crash c r s t →
      (∀ k, c ≠ CommitCrash.carryNameError k) →
      ∃ e1,
        t = Ev.mkCommitDir :: Ev.wipeStaged :: e1 ∧
        (∀ ev ∈ e1, isStagedPhaseEv ev = true) ∧
        r.staged = [] ∧ r.commits = repo.commits) := by
  refine ⟨?_, ?_, ?_⟩
  · intro r s t h
    simp only [commit] at h
    split at h
    · exact absurd h (by simp)
    · split at h
      · exact absurd h (by simp)
      · split at h
        · exact absurd h (by simp)
        · split at h
          · injection h with h1 h2 h3
            subst h1
            refine ⟨(copyStagedAll wd wt repo.staged ⟨[], []⟩).1, [], h3.symm, ?_, ?_,
              rfl, rfl⟩
            · intro ev hev
              exact copyStagedAll_evs wd wt repo.staged ⟨[], []⟩ ev hev
            · intro ev hev
              simp at hev
          · rename_i prevCommit heqLast
            split at h
            · exact absurd h (by simp)
            · injection h with h1 h2 h3
              subst h1
              refine ⟨(copyStagedAll wd wt repo.staged ⟨[], []⟩).1,
                (carryAll wd (((snaps.lookup prevCommit.hash).getD [])) (carryList repo wt)
                  (copyStagedAll wd wt repo.staged ⟨[], []⟩).2.1).1,
                h3.symm, ?_, ?_, rfl, rfl⟩
              · intro ev hev
                exact copyStagedAll_evs wd wt repo.staged ⟨[], []⟩ ev hev
              · intro ev hev
                exact carryAll_evs wd _ _ _ ev hev
  · intro k r s t h
    simp only [commit] at h
    split at h
    · exact absurd h (by simp)
    · split at h
      · exact absurd h (by simp)
      · split at h
        · rename_i c0 hc0
          injection h with h1 h2 h3 h4
          rcases copyStagedAll_crash_kind wd wt repo.staged ⟨[], []⟩ c0 hc0 with
            ⟨d, rfl⟩ | ⟨g, rfl⟩ <;> simp at h1
        · split at h
          · exact absurd h (by simp)
          · rename_i prevCommit heqLast
            split at h
            · rename_i c0 hc0
              injection h with h1 h2 h3 h4
              subst h2
              refine ⟨(copyStagedAll wd wt repo.staged ⟨[], []⟩).1,
                (carryAll wd (((snaps.lookup prevCommit.hash).getD [])) (carryList repo wt)
                  (copyStagedAll wd wt repo.staged ⟨[], []⟩).2.1).1,
                h4.symm, ?_, ?_, rfl, rfl⟩
              · intro ev hev
                exact copyStagedAll_evs wd wt repo.staged ⟨[], []⟩ ev hev
              · intro ev hev
                exact carryAll_evs wd _ _ _ ev hev
            · exact absurd h (by simp)
  · intro c r s t h hnc
    simp only [commit] at h
    split at h
    · exact absurd h (by simp)
    · split at h
      · exact absurd h (by simp)
      · split at h
        · rename_i c0 hc0
          injection h with h1 h2 h3 h4
          subst h2
          refine ⟨(copyStagedAll wd wt repo.staged ⟨[], []⟩).1, h4.symm, ?_, rfl, rfl⟩
          intro ev hev
          exact copyStagedAll_evs wd wt repo.staged ⟨[], []⟩ ev hev
        · split at h
          · exact absurd h (by simp)
          · rename_i prevCommit heqLast
            split at h
            · rename_i c0 hc0
              injection h with h1 h2 h3 h4
              rcases carryAll_crash_kind wd _ _ _ c0 hc0 with ⟨k, rfl⟩
              exact absurd h1.symm (hnc k)
            · exact absurd h (by simp)

/-- Witness for C4 (amended) at two concrete runs: a completed two-commit run
with one staged and one carried-forward file, and the same run with the
carry-forward source missing from the previous snapshot, which dies in the
carry-forward loop with the commit already appended and the staged set
already emptied. -/
theorem commit_append_between_copy_phases_witness :
    (commit "/r" ⟨["/r/a.txt"], ["/r/b.txt"], [⟨"m1", "aa11"⟩], true⟩
        [("/r/a.txt", "A"), ("/r/b.txt", "B")] [("aa11", [("b.txt", "B")])] "m2" "bb22" =
      .ok ⟨[], ["/r/b.txt", "/r/a.txt"], [⟨"m1", "aa11"⟩, ⟨"m2", "bb22"⟩], true⟩
        [("b.txt", "B"), ("a.txt", "A")]
        [.mkCommitDir, .wipeStaged, .copyStaged "/r/a.txt" "a.txt",
         .appendCommit ⟨"m2", "bb22"⟩, .carryForward "/r/b.txt" "b.txt",
         .updateTracked]) ∧
    (∃ e1 e2,
      ([.mkCommitDir, .wipeStaged, .copyStaged "/r/a.txt" "a.txt",
        .appendCommit ⟨"m2", "bb22"⟩, .carryForward "/r/b.txt" "b.txt",
        .updateTracked] : List Ev) =
        Ev.mkCommitDir :: Ev.wipeStaged ::
          (e1 ++ Ev.appendCommit ⟨"m2", "bb22"⟩ :: (e2 ++ [Ev.updateTracked])) ∧
      (∀ ev ∈ e1, isStagedPhaseEv ev = true) ∧
      (∀ ev ∈ e2, isCarryPhaseEv ev = true) ∧
      (Repo.mk [] ["/r/b.txt", "/r/a.txt"] [⟨"m1", "aa11"⟩, ⟨"m2", "bb22"⟩] true).staged
        = [] ∧
      (Repo.mk [] ["/r/b.txt", "/r/a.txt"] [⟨"m1", "aa11"⟩, ⟨"m2", "bb22"⟩] true).commits
        = [⟨"m1", "aa11"⟩] ++ [⟨"m2", "bb22"⟩]) ∧
    (commit "/r" ⟨["/r/a.txt"], ["/r/b.txt"], [⟨"m1", "aa11"⟩], true⟩
        [("/r/a.txt", "A"), ("/r/b.txt", "B")] [("aa11", [])] "m2" "bb22" =
      .crash (.carryNameError "/r/b.txt")
        ⟨[], ["/r/b.txt"], [⟨"m1", "aa11"⟩, ⟨"m2", "bb22"⟩], true⟩ [("a.txt", "A")]
        [.mkCommitDir, .wipeStaged, .copyStaged "/r/a.txt" "a.txt",
         .appendCommit ⟨"m2", "bb22"⟩]) ∧
    (∃ e1 e2,
      ([.mkCommitDir, .wipeStaged, .copyStaged "/r/a.txt" "a.txt",
        .appendCommit ⟨"m2", "bb22"⟩] : List Ev) =
        Ev.mkCommitDir :: Ev.wipeStaged :: (e1 ++ Ev.appendCommit ⟨"m2", "bb22"⟩ :: e2) ∧
      (∀ ev ∈ e1, isStagedPhaseEv ev = true) ∧
      (∀ ev ∈ e2, isCarryPhaseEv ev = true) ∧
      (Repo.mk [] ["/r/b.txt"] [⟨"m1", "aa11"⟩, ⟨"m2", "bb22"⟩] true).staged = [] ∧
      (Repo.mk [] ["/r/b.txt"] [⟨"m1", "aa11"⟩, ⟨"m2", "bb22"⟩] true).commits
        = [⟨"m1", "aa11"⟩] ++ [⟨"m2", "bb22"⟩]) :=
  ⟨by decide,
   (commit_append_between_copy_phases "/r"
     ⟨["/r/a.txt"], ["/r/b.txt"], [⟨"m1", "aa11"⟩], true⟩
     [("/r/a.txt", "A"), ("/r/b.txt", "B")] [("aa11", [("b.txt", "B")])] "m2" "bb22").1
     ⟨[], ["/r/b.txt", "/r/a.txt"], [⟨"m1", "aa11"⟩, ⟨"m2", "bb22"⟩], true⟩
     [("b.txt", "B"), ("a.txt", "A")]
     [.mkCommitDir, .wipeStaged, .copyStaged "/r/a.txt" "a.txt",
      .appendCommit ⟨"m2", "bb22"⟩, .carryForward "/r/b.txt" "b.txt", .updateTracked]
     (by decide),
   by decide,
   (commit_append_between_copy_phases "/r"
     ⟨["/r/a.txt"], ["/r/b.txt"], [⟨"m1", "aa11"⟩], true⟩
     [("/r/a.txt", "A"), ("/r/b.txt", "B")] [("aa11", [])] "m2" "bb22").2.1
     "/r/b.txt"
     ⟨[], ["/r/b.txt"], [⟨"m1", "aa11"⟩, ⟨"m2", "bb22"⟩], true⟩ [("a.txt", "A")]
     [.mkCommitDir, .wipeStaged, .copyStaged "/r/a.txt" "a.txt",
      .appendCommit ⟨"m2", "bb22"⟩]
     (by decide)⟩

/-- Counterexample to C4 as stated: in the concrete two-commit run above, the
append to `commits.json` happens *before* the carry-forward copy of
`/r/b.txt` (so the commit record is not appended only after all snapshot
copies), and the wipe of `staged.json` happens before every copy (so the
staged set is not reset as part of the final step). -/
theorem commit_append_order_counterexample :
    commitTrace (commit "/r" ⟨["/r/a.txt"], ["/r/b.txt"], [⟨"m1", "aa11"⟩], true⟩
        [("/r/a.txt", "A"), ("/r/b.txt", "B")] [("aa11", [("b.txt", "B")])] "m2" "bb22") =
      [.mkCommitDir, .wipeStaged, .copyStaged "/r/a.txt" "a.txt",
       .appendCommit ⟨"m2", "bb22"⟩, .carryForward "/r/b.txt" "b.txt", .updateTracked] ∧
    appendAfterAllCopies
      [.mkCommitDir, .wipeStaged, .copyStaged "/r/a.txt" "a.txt",
       .appendCommit ⟨"m2", "bb22"⟩, .carryForward "/r/b.txt" "b.txt", .updateTracked]
      = false ∧
    wipeAfterAllCopies
      [.mkCommitDir, .wipeStaged, .copyStaged "/r/a.txt" "a.txt",
       .appendCommit ⟨"m2", "bb22"⟩, .carryForward "/r/b.txt" "b.txt", .updateTracked]
      = false := by
  refine ⟨by decide, by decide, by decide⟩

/-- C5: in every completed non-first `commit`, every file in
`tracked - staged - deletions` is carried forward: the trace contains a
carry-forward copy event for it whose source is that file's path and whose
destination is its path relative to the repository root inside the new
snapshot — and by construction of `carryOne` such an event is only emitted
when the file's relative path was found in (and its content copied from) the
immediately preceding commit's snapshot, not the working tree. -/
theorem commit_carries_tracked_from_previous (wd : String) (repo : Repo) (wt : FS)
    (snaps : List (String × FS)) (msg nh : String) (r : Repo) (s : FS) (t : List Ev)
    (h : commit wd repo wt snaps msg nh = .ok r s t) (hne : repo.commits ≠ [])
    (f : String) (hf : f ∈ carryList repo wt) :
    Ev.carryForward f (strip_working_dir wd f) ∈ t := by
  simp only [commit] at h
  split at h
  · exact absurd h (by simp)
  · split at h
    · exact absurd h (by simp)
    · split at h
      · exact absurd h (by simp)
      · split at h
        · rename_i heqLast
          exact absurd (List.getLast?_eq_none_iff.mp heqLast) hne
        · rename_i prevCommit heqLast
          split at h
          · exact absurd h (by simp)
          · rename_i hnone
            injection h with h1 h2 h3
            rw [← h3]
            have hmem := carryAll_mem wd ((snaps.lookup prevCommit.hash).getD [])
              (carryList repo wt) (copyStagedAll wd wt repo.staged ⟨[], []⟩).2.1
              hnone f hf
            simp [List.mem_cons, List.mem_append, hmem]

/-- Witness for C5 at the concrete two-commit run: the tracked, unstaged,
undeleted file `/r/b.txt` is carried forward from the previous snapshot. -/
theorem commit_carries_tracked_from_previous_witness :
    commit "/r" ⟨["/r/a.txt"], ["/r/b.txt"], [⟨"m1", "aa11"⟩], true⟩
        [("/r/a.txt", "A"), ("/r/b.txt", "B")] [("aa11", [("b.txt", "B")])] "m2" "bb22" =
      .ok ⟨[], ["/r/b.txt", "/r/a.txt"], [⟨"m1", "aa11"⟩, ⟨"m2", "bb22"⟩], true⟩
        [("b.txt", "B"), ("a.txt", "A")]
        [.mkCommitDir, .wipeStaged, .copyStaged "/r/a.txt" "a.txt",
         .appendCommit ⟨"m2", "bb22"⟩, .carryForward "/r/b.txt" "b.txt",
         .updateTracked] ∧
    ([⟨"m1", "aa11"⟩] : List Commit) ≠ [] ∧
    "/r/b.txt" ∈ carryList ⟨["/r/a.txt"], ["/r/b.txt"], [⟨"m1", "aa11"⟩], true⟩
      [("/r/a.txt", "A"), ("/r/b.txt", "B")] ∧
    Ev.carryForward "/r/b.txt" (strip_working_dir "/r" "/r/b.txt") ∈
      ([.mkCommitDir, .wipeStaged, .copyStaged "/r/a.txt" "a.txt",
        .appendCommit ⟨"m2", "bb22"⟩, .carryForward "/r/b.txt" "b.txt",
        .updateTracked] : List Ev) :=
  ⟨by decide, by decide, by decide,
   commit_carries_tracked_from_previous "/r"
     ⟨["/r/a.txt"], ["/r/b.txt"], [⟨"m1", "aa11"⟩], true⟩
     [("/r/a.txt", "A"), ("/r/b.txt", "B")] [("aa11", [("b.txt", "B")])] "m2" "bb22"
     ⟨[], ["/r/b.txt", "/r/a.txt"], [⟨"m1", "aa11"⟩, ⟨"m2", "bb22"⟩], true⟩
     [("b.txt", "B"), ("a.txt", "A")]
     [.mkCommitDir, .wipeStaged, .copyStaged "/r/a.txt" "a.txt",
      .appendCommit ⟨"m2", "bb22"⟩, .carryForward "/r/b.txt" "b.txt", .updateTracked]
     (by decide) (by decide) "/r/b.txt" (by decide)⟩
